import Mathlib

/-!
Verification of the reprounzip default unpackers
(`reprounzip/unpackers/default.py`): a shallow embedding of the
`directory` and `chroot` unpacker commands, their persisted target
record, archive extraction, symlink handling, the privilege-policy
resolvers, the mount/unmount lifecycle and the file-transfer helpers,
together with theorems settling the specification's claims about them.
-/

namespace Reprounzip

/-! ## Paths

Paths model the `rpaths` `Path`/`PosixPath` objects used throughout the
source: an absolute-or-relative marker plus the list of name components.
-/

/-- A POSIX path: whether it is absolute, and its non-root components. -/
structure PPath where
  absolute : Bool
  components : List String
deriving DecidableEq, Repr

/-- Test whether `pre` is a prefix of `s` (character-level `str.startswith`). -/
def strStartsWith (s pre : String) : Bool :=
  pre.data.isPrefixOf s.data

/-- Drop the first `n` characters, `s[n:]` (character-level `String.drop`). -/
def strDrop (s : String) (n : Nat) : String :=
  ⟨s.data.drop n⟩

/-- Split a character list at every occurrence of `c`. -/
def splitOnChar (c : Char) : List Char → List (List Char)
  | [] => [[]]
  | a :: as =>
    match splitOnChar c as with
    | [] => [[]]
    | g :: gs => if a = c then [] :: g :: gs else (a :: g) :: gs

/-- Parse `Path(s)` on a string: absolute iff the string starts with `/`; the
components are the non-empty parts between the slashes. -/
def parsePath (s : String) : PPath :=
  ⟨strStartsWith s "/",
   ((splitOnChar '/' s.data).map String.mk).filter (fun c => c ≠ "")⟩

/-- Join strings with `/` separators. -/
def intercalateSlash : List String → String
  | [] => ""
  | [s] => s
  | s :: s2 :: rest => s ++ "/" ++ intercalateSlash (s2 :: rest)

/-- Render `str(p)`: turn a path back to a string. -/
def render (p : PPath) : String :=
  (if p.absolute then "/" else "") ++ intercalateSlash p.components

/-- Component count `len(p.components)`: rpaths counts the root marker `/` as a
component of an absolute path. -/
def PPath.ncomponents (p : PPath) : Nat :=
  (if p.absolute then 1 else 0) + p.components.length

/-- Parent path `p.parent`: drop the last component (the parent of the root is the
root itself). -/
def PPath.parent (p : PPath) : PPath :=
  ⟨p.absolute, p.components.dropLast⟩

/-- Child path `p / name` for a single relative name string. -/
def PPath.child (p : PPath) (name : String) : PPath :=
  ⟨p.absolute, p.components ++ [name]⟩

/-- Modelled from the spec: `join_root` is defined in
`reprounzip.unpackers.common` which is not under `src/`; §4.1 of the
spec describes it ("translate") as concatenating the reconstructed root
with the absolute path stripped of its leading root marker. -/
def join_root (root p : PPath) : PPath :=
  ⟨root.absolute, root.components ++ p.components⟩

/-- The reconstructed root of a target: `target / 'root'` (made
absolute in the source via `.absolute()`, which is the identity when
`target` is already absolute). -/
def rootOf (target : PPath) : PPath :=
  target.child "root"

theorem join_root_extends (root p : PPath) :
    root.components <+: (join_root root p).components :=
  ⟨p.components, rfl⟩

/-! ## Privilege-policy resolvers

`should_restore_owner` and `should_mount_magic_dirs` take the tri-state
command-line parameter (`--preserve-owner` / `--dont-preserve-owner` /
neither, i.e. Python `True` / `False` / `None`) and whether the process
runs as root (`os.getuid() == 0`).  A fatal `sys.exit(1)` is modelled as
`Except.error ()`; a successful resolution returns the effective boolean
together with whether a `logging.warning` was emitted.
-/

/-- The tri-state request: Python `True`, `False` or `None`. -/
inductive TriState where
  | yes
  | no
  | unset
deriving DecidableEq, Repr

/-- Resolver `should_restore_owner(param)` from `default.py`.  `elevated` is
`os.getuid() == 0`.  The result pairs the returned boolean with whether
a warning was logged (the elevated/unset branch logs at info level,
which is not a warning). -/
def should_restore_owner (elevated : Bool) (param : TriState) :
    Except Unit (Bool × Bool) :=
  if !elevated then
    match param with
    | .yes => .error ()
    | .unset => .ok (false, true)
    | .no => .ok (false, false)
  else
    match param with
    | .unset => .ok (true, false)
    | .yes => .ok (true, false)
    | .no => .ok (false, false)

/-- Resolver `should_mount_magic_dirs(param)` from `default.py`, embedded
separately from `should_restore_owner` because the source writes the
two decision procedures out twice. -/
def should_mount_magic_dirs (elevated : Bool) (param : TriState) :
    Except Unit (Bool × Bool) :=
  if !elevated then
    match param with
    | .yes => .error ()
    | .unset => .ok (false, true)
    | .no => .ok (false, false)
  else
    match param with
    | .unset => .ok (true, false)
    | .yes => .ok (true, false)
    | .no => .ok (false, false)

/-- C5: the privilege-policy resolver `should_restore_owner`, given a
tri-state request and whether the process is elevated, behaves as:
not elevated and explicit-yes is a fatal error; not elevated and unset
resolves to no with a warning; not elevated and explicit-no resolves to
no silently; elevated and unset resolves to yes; elevated and
explicit-yes/explicit-no resolve as given. -/
theorem c5_should_restore_owner_table :
    should_restore_owner false .yes = .error () ∧
    should_restore_owner false .unset = .ok (false, true) ∧
    should_restore_owner false .no = .ok (false, false) ∧
    should_restore_owner true .unset = .ok (true, false) ∧
    should_restore_owner true .yes = .ok (true, false) ∧
    should_restore_owner true .no = .ok (false, false) :=
  ⟨rfl, rfl, rfl, rfl, rfl, rfl⟩

/-- C6: for every pair (tri-state request, is-elevated), the two
privilege switches `should_restore_owner` and `should_mount_magic_dirs`
compute the same effective boolean, the same warning behaviour and the
same fatal/non-fatal outcome: one identical decision algorithm. -/
theorem c6_switches_same_algorithm :
    ∀ (elevated : Bool) (param : TriState),
      should_restore_owner elevated param =
        should_mount_magic_dirs elevated param := by
  intro elevated param
  cases elevated <;> cases param <;> rfl

/-! ## The persisted target record and the unpacker commands

The `.reprounzip` file inside a target holds a pickled mapping
`{'unpacker': kind, 'mounted': bool, 'input_files': name → path}`.
Effects of a command on the filesystem are recorded as an ordered event
trace; a `sys.exit(1)` is `CmdErr.exitFail 1` and a raised `UsageError`
is `CmdErr.usage`.  A command that fails returns no trace: nothing was
performed beyond reading the record.
-/

/-- The persisted `.reprounzip` record. -/
structure URecord where
  unpacker : String
  mounted : Bool := false
  input_files : List (String × String) := []
deriving DecidableEq, Repr

/-- How a command fails: a raised `UsageError`, a `sys.exit(n)`, or an
unhandled exception (such as a `KeyError`). -/
inductive CmdErr where
  | usage
  | exitFail (n : Nat)
  | exn
deriving DecidableEq, Repr

/-- Observable side effects of a command, in order. -/
inductive Event where
  | mkdirEvt (p : PPath)
  | mountBind (host : String) (dest : PPath)
  | umountRec (dest : PPath)
  | writeDict (r : URecord)
  | rmtree (target : PPath)
deriving DecidableEq, Repr

/-- Record writer `write_dict(filename, dct, type_)`: the record written is
`{'unpacker': type_}` updated with the fields of `dct`. -/
def write_dict (type_ : String) (mounted : Bool)
    (input_files : List (String × String)) : URecord :=
  ⟨type_, mounted, input_files⟩

/-- Record reader `read_dict(filename, type_)`: load the record; when a kind is
expected and the persisted `unpacker` differs, raise `UsageError`. -/
def read_dict (r : URecord) (type_ : Option String) : Except CmdErr URecord :=
  match type_ with
  | some t => if r.unpacker = t then .ok r else .error .usage
  | none => .ok r

/-- Modelled from the spec: the reprounzip command dispatcher (the
`main` in `reprounzip.main`, not under `src/`) maps a raised
`UsageError` to a non-zero process exit; the spec states that any fatal
setup/usage failure exits non-zero. -/
def exitCode {α : Type} : Except CmdErr α → Nat
  | .ok _ => 0
  | .error .usage => 2
  | .error (.exitFail n) => n
  | .error .exn => 1

/-- The fixed pseudo-filesystems bound by `chroot_mount`. -/
def magicDirs : List String := ["/dev", "/dev/pts", "/proc"]

/-- The mount points examined by `chroot_unmount`. -/
def unmountDirs : List String := ["/dev", "/proc"]

/-- Command `chroot_mount(args)`: after the kind check, create and bind-mount
each magic directory under the translated root, then persist a fresh
record `{'mounted': True}` (of kind `chroot`). -/
def chroot_mount (target : PPath) (r : URecord) :
    Except CmdErr (List Event × URecord) :=
  match read_dict r (some "chroot") with
  | .error e => .error e
  | .ok _ =>
    let evts := magicDirs.flatMap (fun m =>
      let d := join_root (rootOf target) (parsePath m)
      [Event.mkdirEvt d, Event.mountBind m d])
    let r2 := write_dict "chroot" true []
    .ok (evts ++ [Event.writeDict r2], r2)

/-- The recursive-unmount actions of `chroot_unmount`: one per magic
mount point whose directory exists (`d.exists()` is `fsexists`). -/
def umountEvts (fsexists : PPath → Bool) (target : PPath) : List Event :=
  (unmountDirs.filter
      (fun m => fsexists (join_root (rootOf target) (parsePath m)))).map
    (fun m => Event.umountRec (join_root (rootOf target) (parsePath m)))

/-- Operation `chroot_unmount(target)`: after the kind check, if the persisted
`mounted` flag is false return `False` ("nothing to do") with no
action; otherwise recursively unmount every mount under each magic
directory that exists, persist `mounted = False`, and return `True`. -/
def chroot_unmount (fsexists : PPath → Bool) (target : PPath) (r : URecord) :
    Except CmdErr (Bool × List Event × URecord) :=
  match read_dict r (some "chroot") with
  | .error e => .error e
  | .ok r =>
    if r.mounted then
      let r2 := { r with mounted := false }
      .ok (true, umountEvts fsexists target ++ [Event.writeDict r2], r2)
    else
      .ok (false, [], r)

/-- Command `chroot_destroy_unmount(args)`: run the unmount step; if it reports
"nothing to do", log critically and `sys.exit(1)`. -/
def chroot_destroy_unmount (fsexists : PPath → Bool) (target : PPath)
    (r : URecord) : Except CmdErr (List Event × URecord) :=
  match chroot_unmount fsexists target r with
  | .error e => .error e
  | .ok (b, evts, r2) =>
    if b then .ok (evts, r2) else .error (.exitFail 1)

/-- Command `chroot_destroy_dir(args)`: after the kind check, refuse with
`sys.exit(1)` while the persisted `mounted` flag is true; otherwise
remove the directory tree. -/
def chroot_destroy_dir (target : PPath) (r : URecord) :
    Except CmdErr (List Event) :=
  match read_dict r (some "chroot") with
  | .error e => .error e
  | .ok r =>
    if r.mounted then .error (.exitFail 1)
    else .ok [Event.rmtree target]

/-- Command `chroot_destroy(args)`: always run the unmount step first, then
remove the directory tree. -/
def chroot_destroy (fsexists : PPath → Bool) (target : PPath) (r : URecord) :
    Except CmdErr (List Event × URecord) :=
  match chroot_unmount fsexists target r with
  | .error e => .error e
  | .ok (_, evts, r2) => .ok (evts ++ [Event.rmtree target], r2)

/-- Command `directory_destroy(args)`: after the kind check, remove the
directory tree. -/
def directory_destroy (target : PPath) (r : URecord) :
    Except CmdErr (List Event) :=
  match read_dict r (some "directory") with
  | .error e => .error e
  | .ok _ => .ok [Event.rmtree target]

/-- What the `LocalUploader` body of `upload(args)` did before control
reached the `finally` block: its effect trace, its outcome (`.ok` on
normal return, `.error` when it raised), and the final state of the
`input_files` mapping it mutates in place. -/
structure UploadBody where
  events : List Event
  outcome : Except CmdErr Unit
  input_files : List (String × String)

/-- Command `upload(args)`: read the record (kind-checked), run the uploader
body inside `try`, and in `finally` write the whole record — with the
body's `input_files` mapping — back, whether or not the body raised. -/
def upload (_target : PPath) (type_ : String) (r : URecord)
    (body : UploadBody) : Except CmdErr (List Event × Except CmdErr Unit) :=
  match read_dict r (some type_) with
  | .error e => .error e
  | .ok r =>
    .ok (body.events ++ [Event.writeDict
          (write_dict type_ r.mounted body.input_files)],
         body.outcome)

/-- C3: a command issued against a target whose persisted unpacker kind
differs from the kind the command expects fails with a Usage error
before performing any mutation (the failing command produces no event
trace), and the process exit status is non-zero. -/
theorem c3_kind_mismatch_fails_before_mutation :
    ∀ (r : URecord) (fsexists : PPath → Bool) (target : PPath)
      (body : UploadBody) (t : String),
      (r.unpacker ≠ "chroot" →
        chroot_mount target r = .error .usage ∧
        chroot_unmount fsexists target r = .error .usage ∧
        chroot_destroy_unmount fsexists target r = .error .usage ∧
        chroot_destroy_dir target r = .error .usage ∧
        chroot_destroy fsexists target r = .error .usage ∧
        exitCode (chroot_mount target r) ≠ 0) ∧
      (r.unpacker ≠ "directory" →
        directory_destroy target r = .error .usage ∧
        exitCode (directory_destroy target r) ≠ 0) ∧
      (r.unpacker ≠ t →
        upload target t r body = .error .usage ∧
        exitCode (upload target t r body) ≠ 0) := by
  intro r fsexists target body t
  refine ⟨fun h => ?_, fun h => ?_, fun h => ?_⟩ <;>
    simp [chroot_mount, chroot_unmount, chroot_destroy_unmount,
          chroot_destroy_dir, chroot_destroy, directory_destroy, upload,
          read_dict, exitCode, h]

/-- C3 witness: a chroot-only command against a record of kind
`directory` raises `UsageError` and exits non-zero. -/
theorem c3_witness :
    (URecord.mk "directory" false []).unpacker ≠ "chroot" ∧
    chroot_mount ⟨true, ["tmp", "t"]⟩ (URecord.mk "directory" false []) =
      .error .usage := by
  refine ⟨by decide, ?_⟩
  exact ((c3_kind_mismatch_fails_before_mutation
    (URecord.mk "directory" false []) (fun _ => false) ⟨true, ["tmp", "t"]⟩
    ⟨[], .ok (), []⟩ "chroot").1 (by decide)).1

/-- C4: a chroot target whose record has `mounted = true` is never
recursively deleted: `chroot_destroy` performs exactly the unmount
step's trace before the single tree removal, the record at the removal
point has `mounted = false`, and `chroot_destroy_dir` refuses with a
non-zero exit while the flag is true, removing nothing. -/
theorem c4_no_delete_while_mounted :
    ∀ (r : URecord) (fsexists : PPath → Bool) (target : PPath),
      r.unpacker = "chroot" →
      (∃ b evts r2,
        chroot_unmount fsexists target r = .ok (b, evts, r2) ∧
        chroot_destroy fsexists target r =
          .ok (evts ++ [Event.rmtree target], r2) ∧
        r2.mounted = false ∧
        (∀ t, Event.rmtree t ∉ evts) ∧
        (r.mounted = true → b = true)) ∧
      (r.mounted = true →
        chroot_destroy_dir target r = .error (.exitFail 1) ∧
        exitCode (chroot_destroy_dir target r) ≠ 0) := by
  intro r fsexists target h
  constructor
  · by_cases hm : r.mounted = true
    · refine ⟨true, umountEvts fsexists target ++
          [Event.writeDict { r with mounted := false }],
        { r with mounted := false },
        by simp [chroot_unmount, read_dict, h, hm], ?_, rfl, ?_, fun _ => rfl⟩
      · simp [chroot_destroy, chroot_unmount, read_dict, h, hm]
      · intro t ht
        rcases List.mem_append.1 ht with hl | hl
        · rcases List.mem_map.1 hl with ⟨m, _, hmk⟩
          exact Event.noConfusion hmk
        · simp at hl
    · have hm' : r.mounted = false := by
        cases hr : r.mounted
        · rfl
        · exact absurd hr hm
      refine ⟨false, [], r,
        by simp [chroot_unmount, read_dict, h, hm'], ?_, hm', by simp,
        fun hc => absurd hc hm⟩
      simp [chroot_destroy, chroot_unmount, read_dict, h, hm']
  · intro hm
    constructor <;> simp [chroot_destroy_dir, read_dict, exitCode, h, hm]

/-- C4 witness: with a concrete mounted chroot record, `chroot_destroy`
unmounts before removal and `chroot_destroy_dir` refuses. -/
theorem c4_witness :
    (URecord.mk "chroot" true []).unpacker = "chroot" ∧
    chroot_destroy_dir ⟨true, ["tmp", "t"]⟩ (URecord.mk "chroot" true []) =
      .error (.exitFail 1) := by
  refine ⟨rfl, ?_⟩
  exact (((c4_no_delete_while_mounted (URecord.mk "chroot" true [])
    (fun _ => true) ⟨true, ["tmp", "t"]⟩ rfl).2) rfl).1

theorem chroot_unmount_mounted (fsexists : PPath → Bool) (target : PPath)
    (r : URecord) (h : r.unpacker = "chroot") (hm : r.mounted = true) :
    chroot_unmount fsexists target r =
      .ok (true, umountEvts fsexists target ++
          [Event.writeDict { r with mounted := false }],
        { r with mounted := false }) := by
  simp [chroot_unmount, read_dict, h, hm]

theorem chroot_unmount_not_mounted (fsexists : PPath → Bool) (target : PPath)
    (r : URecord) (h : r.unpacker = "chroot") (hm : r.mounted = false) :
    chroot_unmount fsexists target r = .ok (false, [], r) := by
  simp [chroot_unmount, read_dict, h, hm]

/-- C7: calling `chroot_unmount` on a target whose persisted `mounted`
flag is false performs no action and returns the `False` ("nothing to
do") signal, not an error; and after any successful call the persisted
flag is false, so the second of two consecutive calls is always that
no-op — even if the live mount table changed in between. -/
theorem c7_unmount_idempotent :
    ∀ (r : URecord) (fs1 fs2 : PPath → Bool) (target : PPath),
      r.unpacker = "chroot" →
      (r.mounted = false → chroot_unmount fs1 target r = .ok (false, [], r)) ∧
      (∀ b evts r2, chroot_unmount fs1 target r = .ok (b, evts, r2) →
        chroot_unmount fs2 target r2 = .ok (false, [], r2)) := by
  intro r fs1 fs2 target h
  constructor
  · intro hm
    exact chroot_unmount_not_mounted fs1 target r h hm
  · intro b evts r2 hcall
    by_cases hm : r.mounted = true
    · rw [chroot_unmount_mounted fs1 target r h hm] at hcall
      have hr2 : { r with mounted := false } = r2 :=
        congrArg (fun x => x.2.2) (Except.ok.inj hcall)
      subst hr2
      exact chroot_unmount_not_mounted fs2 target _ h rfl
    · have hm' : r.mounted = false := by
        cases hr : r.mounted
        · rfl
        · exact absurd hr hm
      rw [chroot_unmount_not_mounted fs1 target r h hm'] at hcall
      have hr2 : r = r2 := congrArg (fun x => x.2.2) (Except.ok.inj hcall)
      subst hr2
      exact chroot_unmount_not_mounted fs2 target r h hm'

/-- C7 witness: on a concrete unmounted chroot record the first call is
the no-op, and a second call after it is again the no-op. -/
theorem c7_witness :
    (URecord.mk "chroot" false []).unpacker = "chroot" ∧
    chroot_unmount (fun _ => true) ⟨true, ["tmp", "t"]⟩
      (URecord.mk "chroot" false []) =
      .ok (false, [], URecord.mk "chroot" false []) := by
  refine ⟨rfl, ?_⟩
  exact (c7_unmount_idempotent (URecord.mk "chroot" false [])
    (fun _ => true) (fun _ => true) ⟨true, ["tmp", "t"]⟩ rfl).1 rfl

/-- C10: on a kind-matching target, `upload` always writes the whole
persisted record back — its last event is a `write_dict` of the full
record with the body's final `input_files` mapping — on every exit
path: the body's outcome, error or not, is propagated only after that
write. -/
theorem c10_upload_always_rewrites_record :
    ∀ (target : PPath) (type_ : String) (r : URecord) (body : UploadBody),
      r.unpacker = type_ →
      ∃ evts,
        upload target type_ r body = .ok (evts, body.outcome) ∧
        evts.getLast? =
          some (Event.writeDict (write_dict type_ r.mounted body.input_files)) := by
  intro target type_ r body h
  refine ⟨body.events ++ [Event.writeDict
    (write_dict type_ r.mounted body.input_files)], ?_, ?_⟩
  · simp [upload, read_dict, h]
  · simp

/-- C10 witness: a concrete upload whose body raised still ends with
the full-record write and propagates the error. -/
theorem c10_witness :
    (URecord.mk "directory" false [("a", "/x/a")]).unpacker = "directory" ∧
    ∃ evts,
      upload ⟨true, ["tmp", "t"]⟩ "directory"
          (URecord.mk "directory" false [("a", "/x/a")])
          ⟨[], .error (.exitFail 1), [("a", "/x/a"), ("b", "/x/b")]⟩ =
        .ok (evts, .error (.exitFail 1)) ∧
      evts.getLast? =
        some (Event.writeDict
          (write_dict "directory" false [("a", "/x/a"), ("b", "/x/b")])) := by
  refine ⟨rfl, ?_⟩
  exact c10_upload_always_rewrites_record ⟨true, ["tmp", "t"]⟩ "directory"
    (URecord.mk "directory" false [("a", "/x/a")])
    ⟨[], .error (.exitFail 1), [("a", "/x/a"), ("b", "/x/b")]⟩ rfl

/-! ## Archive extraction: `directory_create` and `chroot_create`

A pack is a tar archive: a list of members.  Setup extracts the
metadata member `METADATA/config.yml` into the target (which creates
the target directory), loads the configuration, creates `target/root`,
then — after checking every member name for `..` segments and absolute
markers — extracts the `DATA/`-prefixed members under the root.
`directory_create` additionally rewrites absolute symlink targets
through the root translation; `chroot_create` instead copies missing
host package files first, optionally resets member owners, and installs
busybox when `/bin/sh` or `/usr/bin/env` is missing after extraction.
-/

/-- A tar archive member, as far as extraction is concerned. -/
structure TarMember where
  name : String
  issym : Bool := false
  linkname : String := ""
  uid : Nat := 0
  gid : Nat := 0
deriving DecidableEq, Repr

/-- Python's substring test `needle in hay`. -/
def containsSubstring (needle hay : String) : Bool :=
  (List.range (hay.data.length + 1)).any
    (fun i => needle.data.isPrefixOf (hay.data.drop i))

/-- A member name rejected by the validity check:
`'..' in m.name or m.name.startswith('/')`. -/
def invalidName (m : TarMember) : Bool :=
  containsSubstring ".." m.name || strStartsWith m.name "/"

/-- Check `any(... for m in tar.getmembers())`: the check runs over all
members of the archive. -/
def hasInvalidPaths (archive : List TarMember) : Bool :=
  archive.any invalidName

/-- Lookup `tar.getmember(name)`, as an `Option` (a missing member raises). -/
def getmember (archive : List TarMember) (nm : String) : Option TarMember :=
  archive.find? (fun m => decide (m.name = nm))

/-- Prefix strip `m.name = m.name[5:]` applied to a `DATA/`-prefixed member. -/
def stripDataPrefix (m : TarMember) : TarMember :=
  { m with name := strDrop m.name 5 }

/-- The members selected for extraction: those under the `DATA/`
prefix, with the prefix stripped. -/
def dataMembers (archive : List TarMember) : List TarMember :=
  (archive.filter (fun m => strStartsWith m.name "DATA/")).map stripDataPrefix

/-- The symlink-target rewrite of `directory_create`: a symlink member
whose link target is absolute has it replaced by the target translated
under the root. -/
def fixSymlink (root : PPath) (m : TarMember) : TarMember :=
  if m.issym && (parsePath m.linkname).absolute then
    { m with linkname := render (join_root root (parsePath m.linkname)) }
  else m

/-- The owner reset applied by `chroot_create` when not restoring
owners: every member gets the current uid/gid. -/
def setUidGid (uid gid : Nat) (m : TarMember) : TarMember :=
  { m with uid := uid, gid := gid }

/-- A write performed under the target directory during setup. -/
inductive FSWrite where
  | file (p : PPath)
  | symlink (p : PPath) (link : String)
  | dirMade (p : PPath)
  | hostCopy (src : PPath) (dest : PPath)
deriving DecidableEq, Repr

/-- The path a write creates. -/
def FSWrite.dest : FSWrite → PPath
  | .file p => p
  | .symlink p _ => p
  | .dirMade p => p
  | .hostCopy _ d => d

/-- Whether some earlier write created `p` (the `lexists` test on the
freshly created root: a dangling symlink counts). -/
def writesPath (ws : List FSWrite) (p : PPath) : Bool :=
  ws.any (fun w => decide (w.dest = p))

/-- Extraction `tar.extract` of one (prefix-stripped) data member under the root. -/
def extractWrite (root : PPath) (m : TarMember) : FSWrite :=
  if m.issym then .symlink (join_root root (parsePath m.name)) m.linkname
  else .file (join_root root (parsePath m.name))

/-- The host-package copy of one file by `chroot_create`: a host file
that is itself a symlink is recreated at its translated location as a
symlink carrying the host link target unchanged
(`dest.symlink(f.read_link())`); any other host file is copied.
`hostIsLink` is `f.is_link()` and `hostReadLink` is `f.read_link()`. -/
def pkgFileCopy (hostIsLink : String → Bool) (hostReadLink : String → String)
    (root : PPath) (f : String) : FSWrite :=
  if hostIsLink f then
    .symlink (join_root root (parsePath f)) (hostReadLink f)
  else
    .hostCopy (parsePath f) (join_root root (parsePath f))

/-- One file entry of a package: its original absolute path. -/
structure Package where
  name : String
  packfiles : Bool
  files : List String
deriving DecidableEq, Repr

/-- All host-package copies performed by `chroot_create`: for every
package whose files were not packed, each of its files that exists on
the host is reproduced under the root (intermediate directory creations
are elided; a missing host file is only logged). -/
def pkgCopyWrites (hostExists hostIsLink : String → Bool)
    (hostReadLink : String → String) (root : PPath)
    (packages : List Package) : List FSWrite :=
  (packages.filter (fun p => !p.packfiles)).flatMap (fun p =>
    (p.files.filter hostExists).map (pkgFileCopy hostIsLink hostReadLink root))

/-- The busybox installation of `chroot_create`: when `/bin/sh` or
`/usr/bin/env` is not present after extraction, download busybox to
`/bin/busybox` and symlink whichever of the two was missing to it. -/
def busyboxWrites (root : PPath) (prior : List FSWrite) : List FSWrite :=
  if !writesPath prior (join_root root (parsePath "/bin/sh")) ||
      !writesPath prior (join_root root (parsePath "/usr/bin/env")) then
    [FSWrite.file (join_root root (parsePath "/bin/busybox"))] ++
    (if !writesPath prior (join_root root (parsePath "/bin/sh")) then
      [FSWrite.symlink (join_root root (parsePath "/bin/sh"))
        "/bin/busybox"]
    else []) ++
    (if !writesPath prior (join_root root (parsePath "/usr/bin/env")) then
      [FSWrite.symlink (join_root root (parsePath "/usr/bin/env"))
        "/bin/busybox"]
    else [])
  else []

/-- The side archive of original input files is written when any run
declares input files. -/
def inputTarWrites (runsInputs : List (List String)) (target : PPath) :
    List FSWrite :=
  if runsInputs.any (fun l => !l.isEmpty) then
    [FSWrite.file (target.child "inputs.tar.gz")]
  else []

/-- The outcome of a setup command: success, a `sys.exit`, or an
unhandled exception, with whether the target directory is present
afterwards and the ordered writes performed under it. -/
inductive CreateOutcome where
  | ok (writes : List FSWrite)
  | failed (exit : Nat) (targetLeft : Bool) (writes : List FSWrite)
  | exn (targetLeft : Bool) (writes : List FSWrite)
deriving DecidableEq, Repr

/-- Command `directory_create(args)`.  `runsInputs` lists each run's declared
input files; `preExists` is the `target.exists()` test at entry.  The
metadata member is extracted into the target — creating the target
directory — before the validity check over all member names runs; on an
invalid name the command exits 1 with the target left in place.  The
platform and missing-pack-argument exits and the package
missing-on-host warnings (which write nothing) are elided. -/
def directory_create (archive : List TarMember)
    (runsInputs : List (List String)) (preExists : Bool) (target : PPath) :
    CreateOutcome :=
  if preExists then .failed 1 true [] else
  match getmember archive "METADATA/config.yml" with
  | none => .exn false []
  | some _ =>
    let root := rootOf target
    let pre := [FSWrite.file (target.child "config.yml"),
                FSWrite.dirMade root]
    if hasInvalidPaths archive then
      .failed 1 true pre
    else
      let members := (dataMembers archive).map (fixSymlink root)
      .ok (pre ++ members.map (extractWrite root) ++
        inputTarWrites runsInputs target ++
        [FSWrite.file (target.child ".reprounzip")])

/-- Command `chroot_create(args)`.  The privilege policy is resolved first
(`sys.exit(1)` before anything is created when it is fatal); the
metadata member is extracted into the target; host package files are
reproduced (symlinks as symlinks with their host link targets) for
packages that were not packed; then the validity check over all member
names runs, and only after it passes are the data members — without any
symlink rewriting, with owners reset to the current uid/gid unless
restoring owners — extracted, followed by the busybox setup. -/
def chroot_create (archive : List TarMember) (packages : List Package)
    (hostExists hostIsLink : String → Bool)
    (hostReadLink : String → String) (runsInputs : List (List String))
    (elevated : Bool) (restoreOwnerParam : TriState) (uid gid : Nat)
    (preExists : Bool) (target : PPath) : CreateOutcome :=
  if preExists then .failed 1 true [] else
  match should_restore_owner elevated restoreOwnerParam with
  | .error _ => .failed 1 false []
  | .ok (restore, _) =>
    match getmember archive "METADATA/config.yml" with
    | none => .exn false []
    | some _ =>
      let root := rootOf target
      let pre := FSWrite.file (target.child "config.yml") ::
        FSWrite.dirMade root ::
        pkgCopyWrites hostExists hostIsLink hostReadLink root packages
      if hasInvalidPaths archive then
        .failed 1 true pre
      else
        let members :=
          if restore then dataMembers archive
          else (dataMembers archive).map (setUidGid uid gid)
        let dataWrites := members.map (extractWrite root)
        .ok (pre ++ dataWrites ++
          busyboxWrites root
            (pkgCopyWrites hostExists hostIsLink hostReadLink root packages
              ++ dataWrites) ++
          inputTarWrites runsInputs target ++
          [FSWrite.file (target.child ".reprounzip")])

theorem fixSymlink_issym (root : PPath) (m : TarMember) :
    (fixSymlink root m).issym = m.issym := by
  unfold fixSymlink
  split <;> rfl

theorem setUidGid_issym (uid gid : Nat) (m : TarMember) :
    (setUidGid uid gid m).issym = m.issym := rfl

theorem setUidGid_linkname (uid gid : Nat) (m : TarMember) :
    (setUidGid uid gid m).linkname = m.linkname := rfl

theorem join_root_absolute (root p : PPath) :
    (join_root root p).absolute = root.absolute := rfl

theorem symlink_not_mem_inputTarWrites (ri : List (List String)) (t : PPath)
    (dest : PPath) (link : String) :
    FSWrite.symlink dest link ∉ inputTarWrites ri t := by
  unfold inputTarWrites
  split <;> simp

theorem mem_pkgCopyWrites_symlink (hostExists hostIsLink : String → Bool)
    (hostReadLink : String → String) (root : PPath)
    (packages : List Package) (dest : PPath) (link : String) :
    FSWrite.symlink dest link ∈
        pkgCopyWrites hostExists hostIsLink hostReadLink root packages →
      ∃ p, p ∈ packages ∧ p.packfiles = false ∧
        ∃ f, f ∈ p.files ∧ hostExists f = true ∧ hostIsLink f = true ∧
          link = hostReadLink f := by
  intro h
  unfold pkgCopyWrites at h
  rcases List.mem_flatMap.1 h with ⟨p, hp, hmem⟩
  rcases List.mem_map.1 hmem with ⟨f, hf, heq⟩
  have hp2 := List.mem_filter.1 hp
  have hf2 := List.mem_filter.1 hf
  unfold pkgFileCopy at heq
  by_cases hl : hostIsLink f = true
  · rw [if_pos hl] at heq
    exact ⟨p, hp2.1, by simpa using hp2.2, f, hf2.1, hf2.2, hl,
      ((FSWrite.symlink.inj heq).2).symm⟩
  · rw [if_neg hl] at heq
    exact absurd heq (fun hc => FSWrite.noConfusion hc)

theorem mem_busyboxWrites_symlink (root : PPath) (prior : List FSWrite)
    (dest : PPath) (link : String) :
    FSWrite.symlink dest link ∈ busyboxWrites root prior →
      link = "/bin/busybox" := by
  intro h
  unfold busyboxWrites at h
  split at h
  · simp only [List.mem_append, List.mem_singleton] at h
    rcases h with (h | h) | h
    · exact FSWrite.noConfusion h
    · split at h <;> simp_all
    · split at h <;> simp_all
  · simp at h

/-- The concrete archive for the traversal counterexample: the metadata
member plus a data member whose name climbs out with `..`. -/
def cexTraversalArchive : List TarMember :=
  [⟨"METADATA/config.yml", false, "", 0, 0⟩,
   ⟨"DATA/../../etc/passwd", false, "", 0, 0⟩]

/-- C1 counterexample: on an archive with a `..` member name,
`directory_create` does exit 1 before extracting any data member, but
the target directory is left present — not absent or removed — already
populated with the extracted metadata file `config.yml` (an archive
member written before the validity check runs). -/
theorem c1_counterexample :
    hasInvalidPaths cexTraversalArchive = true ∧
    directory_create cexTraversalArchive [] false ⟨true, ["tmp", "t"]⟩ =
      .failed 1 true
        [FSWrite.file ⟨true, ["tmp", "t", "config.yml"]⟩,
         FSWrite.dirMade ⟨true, ["tmp", "t", "root"]⟩] := by
  constructor
  · decide
  · rfl

/-- C1 (amended): for every archive containing a member whose name has
a `..` segment or starts with `/`, both setups exit 1 after checking
all members and before extracting any data member; but the target
directory is left present — holding the extracted metadata file and,
for chroot, any host package files already copied — rather than absent
or removed. -/
theorem c1_invalid_paths_abort_before_extraction :
    ∀ (archive : List TarMember) (runsInputs : List (List String))
      (target : PPath) (packages : List Package)
      (hostExists hostIsLink : String → Bool)
      (hostReadLink : String → String) (elevated : Bool) (param : TriState)
      (uid gid : Nat) (res : Bool × Bool),
      hasInvalidPaths archive = true →
      (getmember archive "METADATA/config.yml").isSome = true →
      should_restore_owner elevated param = .ok res →
      directory_create archive runsInputs false target =
        .failed 1 true
          [FSWrite.file (target.child "config.yml"),
           FSWrite.dirMade (rootOf target)] ∧
      chroot_create archive packages hostExists hostIsLink hostReadLink
          runsInputs elevated param uid gid false target =
        .failed 1 true
          (FSWrite.file (target.child "config.yml") ::
           FSWrite.dirMade (rootOf target) ::
           pkgCopyWrites hostExists hostIsLink hostReadLink (rootOf target)
             packages) := by
  intro archive runsInputs target packages hostExists hostIsLink
    hostReadLink elevated param uid gid res hbad hcfg hres
  obtain ⟨c, hc⟩ := Option.isSome_iff_exists.mp hcfg
  obtain ⟨restore, warn⟩ := res
  constructor
  · simp [directory_create, hc, hbad]
  · simp [chroot_create, hres, hc, hbad]

/-- C1 witness: the amended claim at the concrete traversal archive,
for `chroot_create` with no packages. -/
theorem c1_witness :
    hasInvalidPaths cexTraversalArchive = true ∧
    chroot_create cexTraversalArchive [] (fun _ => false) (fun _ => false)
        (fun _ => "") [] true .unset 0 0 false ⟨true, ["tmp", "t"]⟩ =
      .failed 1 true
        [FSWrite.file ⟨true, ["tmp", "t", "config.yml"]⟩,
         FSWrite.dirMade ⟨true, ["tmp", "t", "root"]⟩] := by
  refine ⟨by decide, ?_⟩
  have h := c1_invalid_paths_abort_before_extraction cexTraversalArchive []
    ⟨true, ["tmp", "t"]⟩ [] (fun _ => false) (fun _ => false) (fun _ => "")
    true .unset 0 0 (true, false) (by decide) (by decide) rfl
  simpa using h.2

/-- The concrete archive for the symlink counterexample: the metadata
member plus a symlink data member whose target is an absolute path. -/
def cexSymlinkArchive : List TarMember :=
  [⟨"METADATA/config.yml", false, "", 0, 0⟩,
   ⟨"DATA/home/u/mylink", true, "/etc/passwd", 0, 0⟩]

/-- C2 counterexample: `chroot_create` extracts a symlink member whose
absolute link target `/etc/passwd` is written unchanged: it is not
rewritten through the root translation and does not point inside the
reconstructed root `/tmp/t/root`. -/
theorem c2_counterexample :
    chroot_create cexSymlinkArchive [] (fun _ => false) (fun _ => false)
        (fun _ => "") [] true .unset 0 0 false ⟨true, ["tmp", "t"]⟩ =
      .ok [FSWrite.file ⟨true, ["tmp", "t", "config.yml"]⟩,
           FSWrite.dirMade ⟨true, ["tmp", "t", "root"]⟩,
           FSWrite.symlink
             ⟨true, ["tmp", "t", "root", "home", "u", "mylink"]⟩
             "/etc/passwd",
           FSWrite.file ⟨true, ["tmp", "t", "root", "bin", "busybox"]⟩,
           FSWrite.symlink ⟨true, ["tmp", "t", "root", "bin", "sh"]⟩
             "/bin/busybox",
           FSWrite.symlink ⟨true, ["tmp", "t", "root", "usr", "bin", "env"]⟩
             "/bin/busybox",
           FSWrite.file ⟨true, ["tmp", "t", ".reprounzip"]⟩] ∧
    (parsePath "/etc/passwd").absolute = true ∧
    ¬(rootOf ⟨true, ["tmp", "t"]⟩).components <+:
        (parsePath "/etc/passwd").components := by
  refine ⟨by decide, by decide, by decide⟩

/-- C2 (amended): every symlink `directory_create` extracts goes
through `fixSymlink`, which rewrites exactly the absolute link targets:
an absolute target becomes the rendering of a path that provably
extends the reconstructed root, while a relative target is left
unchanged (and so is not covered by the inside-the-root guarantee);
`chroot_create` translates no symlink target at all: each of its
symlink writes is an archive symlink member carrying its original link
target, a busybox link to `/bin/busybox`, or a host package file that
is a symlink, reproduced with its untranslated host link target. -/
theorem c2_symlink_translation :
    (∀ (root : PPath) (m : TarMember),
      root.absolute = true → m.issym = true →
      ((parsePath m.linkname).absolute = true →
        ∃ q : PPath, (fixSymlink root m).linkname = render q ∧
          q.absolute = true ∧ root.components <+: q.components) ∧
      ((parsePath m.linkname).absolute = false →
        (fixSymlink root m).linkname = m.linkname)) ∧
    (∀ (archive : List TarMember) (runsInputs : List (List String))
      (target : PPath) (ws : List FSWrite) (dest : PPath) (link : String),
      directory_create archive runsInputs false target = .ok ws →
      FSWrite.symlink dest link ∈ ws →
      ∃ m, m ∈ dataMembers archive ∧ m.issym = true ∧
        link = (fixSymlink (rootOf target) m).linkname) ∧
    (∀ (archive : List TarMember) (packages : List Package)
      (hostExists hostIsLink : String → Bool)
      (hostReadLink : String → String) (runsInputs : List (List String))
      (elevated : Bool) (param : TriState) (uid gid : Nat)
      (target : PPath) (ws : List FSWrite) (dest : PPath) (link : String),
      chroot_create archive packages hostExists hostIsLink hostReadLink
          runsInputs elevated param uid gid false target = .ok ws →
      FSWrite.symlink dest link ∈ ws →
      (∃ m, m ∈ dataMembers archive ∧ m.issym = true ∧ link = m.linkname) ∨
        link = "/bin/busybox" ∨
        (∃ p, p ∈ packages ∧ p.packfiles = false ∧
          ∃ f, f ∈ p.files ∧ hostExists f = true ∧ hostIsLink f = true ∧
            link = hostReadLink f)) := by
  refine ⟨?_, ?_, ?_⟩
  · intro root m hroot hsym
    constructor
    · intro habs
      refine ⟨join_root root (parsePath m.linkname), ?_, ?_,
        join_root_extends _ _⟩
      · simp [fixSymlink, hsym, habs]
      · rw [join_root_absolute]
        exact hroot
    · intro hnabs
      simp [fixSymlink, hsym, hnabs]
  · intro archive runsInputs target ws dest link hok hmem
    cases hcfg : getmember archive "METADATA/config.yml" with
    | none => simp [directory_create, hcfg] at hok
    | some c =>
      cases hbad : hasInvalidPaths archive with
      | true => simp [directory_create, hcfg, hbad] at hok
      | false =>
        simp only [directory_create, hcfg, hbad, Bool.false_eq_true,
          if_false, CreateOutcome.ok.injEq] at hok
        subst hok
        rcases List.mem_append.1 hmem with hmem2 | h
        swap
        · simp at h
        rcases List.mem_append.1 hmem2 with hmem3 | h
        swap
        · exact absurd h (symlink_not_mem_inputTarWrites _ _ _ _)
        rcases List.mem_append.1 hmem3 with h | h
        · simp at h
        · rcases List.mem_map.1 h with ⟨m1, hm1, hw⟩
          rcases List.mem_map.1 hm1 with ⟨m, hm, hfix⟩
          subst hfix
          refine ⟨m, hm, ?_, ?_⟩
          · by_cases hs : m.issym = true
            · exact hs
            · exfalso
              rw [extractWrite] at hw
              rw [fixSymlink_issym] at hw
              simp only [Bool.not_eq_true] at hs
              rw [hs] at hw
              simp at hw
          · rw [extractWrite] at hw
            by_cases hs : (fixSymlink (rootOf target) m).issym = true
            · rw [if_pos hs] at hw
              exact (FSWrite.symlink.inj hw).2.symm
            · rw [if_neg hs] at hw
              exact absurd hw (by simp)
  · intro archive packages hostExists hostIsLink hostReadLink runsInputs
      elevated param uid gid target ws dest link hok hmem
    rcases hres : should_restore_owner elevated param with e | res
    · simp [chroot_create, hres] at hok
    · obtain ⟨restore, warn⟩ := res
      cases hcfg : getmember archive "METADATA/config.yml" with
      | none => simp [chroot_create, hres, hcfg] at hok
      | some c =>
        cases hbad : hasInvalidPaths archive with
        | true => simp [chroot_create, hres, hcfg, hbad] at hok
        | false =>
          simp only [chroot_create, hres, hcfg, hbad, Bool.false_eq_true,
            if_false, CreateOutcome.ok.injEq] at hok
          subst hok
          rcases List.mem_append.1 hmem with hmem2 | h
          swap
          · simp at h
          rcases List.mem_append.1 hmem2 with hmem3 | h
          swap
          · exact absurd h (symlink_not_mem_inputTarWrites _ _ _ _)
          rcases List.mem_append.1 hmem3 with hmem4 | h
          swap
          · right
            left
            exact mem_busyboxWrites_symlink _ _ _ _ h
          rcases List.mem_append.1 hmem4 with h | h
          · rcases List.mem_cons.1 h with h | h
            · exact FSWrite.noConfusion h
            rcases List.mem_cons.1 h with h | h
            · exact FSWrite.noConfusion h
            · right
              right
              exact mem_pkgCopyWrites_symlink _ _ _ _ _ _ _ h
          · left
            have hmem4 : FSWrite.symlink dest link ∈
                (if restore = true then dataMembers archive
                 else (dataMembers archive).map (setUidGid uid gid)).map
                  (extractWrite (rootOf target)) := h
            by_cases hrest : restore = true
            · rw [if_pos hrest] at hmem4
              rcases List.mem_map.1 hmem4 with ⟨m, hm, hw⟩
              refine ⟨m, hm, ?_, ?_⟩
              · by_cases hs : m.issym = true
                · exact hs
                · exfalso
                  rw [extractWrite, if_neg hs] at hw
                  exact FSWrite.noConfusion hw
              · by_cases hs : m.issym = true
                · rw [extractWrite, if_pos hs] at hw
                  exact (FSWrite.symlink.inj hw).2.symm
                · exfalso
                  rw [extractWrite, if_neg hs] at hw
                  exact FSWrite.noConfusion hw
            · rw [if_neg hrest] at hmem4
              rcases List.mem_map.1 hmem4 with ⟨m1, hm1, hw⟩
              rcases List.mem_map.1 hm1 with ⟨m, hm, hset⟩
              subst hset
              have hsym_eq : (setUidGid uid gid m).issym = m.issym :=
                setUidGid_issym uid gid m
              refine ⟨m, hm, ?_, ?_⟩
              · by_cases hs : (setUidGid uid gid m).issym = true
                · exact hsym_eq ▸ hs
                · exfalso
                  rw [extractWrite, if_neg hs] at hw
                  exact FSWrite.noConfusion hw
              · by_cases hs : (setUidGid uid gid m).issym = true
                · rw [extractWrite, if_pos hs] at hw
                  exact (FSWrite.symlink.inj hw).2.symm
                · exfalso
                  rw [extractWrite, if_neg hs] at hw
                  exact FSWrite.noConfusion hw

/-- C2 witness: in the concrete directory setup, the extracted symlink's
written target comes from `fixSymlink`, i.e. it was rewritten through
the root translation. -/
theorem c2_witness :
    ∃ m, m ∈ dataMembers cexSymlinkArchive ∧ m.issym = true ∧
      "/tmp/t/root/etc/passwd" =
        (fixSymlink (rootOf ⟨true, ["tmp", "t"]⟩) m).linkname := by
  refine c2_symlink_translation.2.1 cexSymlinkArchive [] ⟨true, ["tmp", "t"]⟩
    [FSWrite.file ⟨true, ["tmp", "t", "config.yml"]⟩,
     FSWrite.dirMade ⟨true, ["tmp", "t", "root"]⟩,
     FSWrite.symlink ⟨true, ["tmp", "t", "root", "home", "u", "mylink"]⟩
       "/tmp/t/root/etc/passwd",
     FSWrite.file ⟨true, ["tmp", "t", ".reprounzip"]⟩]
    ⟨true, ["tmp", "t", "root", "home", "u", "mylink"]⟩
    "/tmp/t/root/etc/passwd" (by decide) (by decide)

/-! ## Command-line argument rewriting (`directory_run`, `chroot_run`)

`directory_run`, when no `--cmdline` override is given, walks the
recorded argv and rewrites absolute-path arguments to their translated
candidates; `chroot_run` builds its argv as the recorded binary
followed by the rest of the recorded argv, with no rewriting (inside
the chroot, original absolute paths already resolve under the new
root).
-/

/-- One recorded command-line argument: its string value, and whether
`Path(arg)` succeeds on it (`False` models the `UnicodeEncodeError`
branch, which skips the element). -/
structure Arg where
  value : String
  encodable : Bool := true
deriving DecidableEq, Repr

/-- The loop body of the argv rewrite in `directory_run`: an encodable
absolute argument whose translated candidate exists — or has more than
three components and an existing parent — is replaced by the candidate,
setting the per-element rewritten flag. -/
def rewriteArg (root : PPath) (fsexists : PPath → Bool) (a : Arg) :
    Arg × Bool :=
  if !a.encodable then (a, false)
  else if (parsePath a.value).absolute then
    if fsexists (join_root root (parsePath a.value)) ||
        (decide ((join_root root (parsePath a.value)).ncomponents > 3) &&
          fsexists (join_root root (parsePath a.value)).parent) then
      (⟨render (join_root root (parsePath a.value)), a.encodable⟩, true)
    else (a, false)
  else (a, false)

/-- The whole rewrite loop of `directory_run`: each element processed
independently, `rewritten` true when any element was replaced (used
only for the operator-facing warning). -/
def rewriteArgs (root : PPath) (fsexists : PPath → Bool) (argv : List Arg) :
    List Arg × Bool :=
  ((argv.map (rewriteArg root fsexists)).map (fun x => x.1),
   (argv.map (rewriteArg root fsexists)).any (fun x => x.2))

/-- The argv `directory_run` executes: the rewritten recorded argv when
no `--cmdline` override is given, the override verbatim otherwise. -/
def directory_run_argv (root : PPath) (fsexists : PPath → Bool)
    (cmdline : Option (List Arg)) (recorded : List Arg) : List Arg × Bool :=
  match cmdline with
  | some c => (c, false)
  | none => rewriteArgs root fsexists recorded

/-- The argv `chroot_run` executes: when no override is given,
`[run['binary']] + run['argv'][1:]` — no rewriting of any element. -/
def chroot_run_argv (cmdline : Option (List Arg)) (binary : Arg)
    (recorded : List Arg) : List Arg :=
  match cmdline with
  | some c => c
  | none => binary :: recorded.tail

/-- The filesystem oracle of the C8 counterexample: exactly the
translated candidate `/tmp/t/root/usr/bin/prog` exists. -/
def cexRunFs : PPath → Bool :=
  fun p => decide (p = ⟨true, ["tmp", "t", "root", "usr", "bin", "prog"]⟩)

/-- C8 counterexample: in a chroot run with no override, the recorded
absolute argument `/usr/bin/prog` — whose translated candidate exists —
is left untouched by `chroot_run`, although the claimed rewrite rule
(the one `directory_run` implements) would rewrite it to the
translated `/tmp/t/root/usr/bin/prog`. -/
theorem c8_counterexample :
    chroot_run_argv none ⟨"/usr/bin/prog", true⟩ [⟨"/usr/bin/prog", true⟩] =
      [⟨"/usr/bin/prog", true⟩] ∧
    cexRunFs (join_root (rootOf ⟨true, ["tmp", "t"]⟩)
      (parsePath "/usr/bin/prog")) = true ∧
    rewriteArgs (rootOf ⟨true, ["tmp", "t"]⟩) cexRunFs
      [⟨"/usr/bin/prog", true⟩] =
      ([⟨"/tmp/t/root/usr/bin/prog", true⟩], true) ∧
    (⟨"/usr/bin/prog", true⟩ : Arg) ≠ ⟨"/tmp/t/root/usr/bin/prog", true⟩ := by
  refine ⟨rfl, by decide, by decide, by decide⟩

/-- C8 (amended): in `directory_run` with no override each element
follows the claimed rule — unparseable untouched; absolute rewritten to
the translated candidate exactly when the candidate exists or has more
than three components with an existing parent; otherwise unchanged —
with the flag recording whether any element was rewritten; but
`chroot_run` performs no rewriting at all: its argv is the recorded
binary followed by the remaining recorded arguments unchanged. -/
theorem c8_rewrite_rule :
    (∀ (root : PPath) (fsexists : PPath → Bool) (a : Arg),
      (a.encodable = false → rewriteArg root fsexists a = (a, false)) ∧
      (a.encodable = true → (parsePath a.value).absolute = false →
        rewriteArg root fsexists a = (a, false)) ∧
      (a.encodable = true → (parsePath a.value).absolute = true →
        (fsexists (join_root root (parsePath a.value)) = true ∨
          ((join_root root (parsePath a.value)).ncomponents > 3 ∧
            fsexists (join_root root (parsePath a.value)).parent = true) →
          rewriteArg root fsexists a =
            (⟨render (join_root root (parsePath a.value)), true⟩, true)) ∧
        (fsexists (join_root root (parsePath a.value)) = false →
          ¬((join_root root (parsePath a.value)).ncomponents > 3 ∧
            fsexists (join_root root (parsePath a.value)).parent = true) →
          rewriteArg root fsexists a = (a, false)))) ∧
    (∀ (root : PPath) (fsexists : PPath → Bool) (argv : List Arg),
      (directory_run_argv root fsexists none argv).1 =
        argv.map (fun a => (rewriteArg root fsexists a).1) ∧
      (directory_run_argv root fsexists none argv).2 =
        argv.any (fun a => (rewriteArg root fsexists a).2)) ∧
    (∀ (binary : Arg) (argv : List Arg),
      chroot_run_argv none binary argv = binary :: argv.tail) := by
  refine ⟨?_, ?_, fun binary argv => rfl⟩
  · intro root fsexists a
    refine ⟨?_, ?_, ?_⟩
    · intro he
      simp [rewriteArg, he]
    · intro he hnabs
      simp [rewriteArg, he, hnabs]
    · intro he habs
      constructor
      · intro hcond
        have hb : (fsexists (join_root root (parsePath a.value)) ||
            (decide ((join_root root (parsePath a.value)).ncomponents > 3) &&
              fsexists (join_root root (parsePath a.value)).parent)) =
              true := by
          rcases hcond with hc | ⟨h3, hp⟩
          · simp [hc]
          · simp [h3, hp]
        simp [rewriteArg, he, habs, hb]
      · intro hne hnc
        have hb : (fsexists (join_root root (parsePath a.value)) ||
            (decide ((join_root root (parsePath a.value)).ncomponents > 3) &&
              fsexists (join_root root (parsePath a.value)).parent)) =
              false := by
          rcases hp : fsexists (join_root root (parsePath a.value)).parent
          · simp [hne, hp]
          · have h3 : ¬(join_root root (parsePath a.value)).ncomponents > 3 :=
              fun hgt => hnc ⟨hgt, hp⟩
            simp [hne, h3]
        simp [rewriteArg, he, habs, hb]
  · intro root fsexists argv
    constructor
    · simp [directory_run_argv, rewriteArgs, List.map_map]
    · show ((argv.map (rewriteArg root fsexists)).any fun x => x.2) =
        argv.any fun a => (rewriteArg root fsexists a).2
      induction argv with
      | nil => rfl
      | cons a t ih => simp [ih]

/-- C8 witness: the rule applied at the concrete existing candidate
rewrites the argument to the translated path. -/
theorem c8_witness :
    rewriteArg (rootOf ⟨true, ["tmp", "t"]⟩) cexRunFs
      ⟨"/usr/bin/prog", true⟩ = (⟨"/tmp/t/root/usr/bin/prog", true⟩, true) := by
  have h := ((c8_rewrite_rule.1 (rootOf ⟨true, ["tmp", "t"]⟩) cexRunFs
    ⟨"/usr/bin/prog", true⟩).2.2 rfl (by decide)).1 (Or.inl (by decide))
  exact h.trans (by decide)

/-! ## File transfer: missing remote files (`LocalDownloader`,
`LocalUploader.extract_original_input`) -/

/-- Observable actions of the transfer helpers. -/
inductive XferEvent where
  | streamOut (p : PPath)
  | copyTo (src dst : PPath)
  | extractTo (memberName : String) (dst : PPath)
deriving DecidableEq, Repr

namespace LocalDownloader

/-- Method `LocalDownloader.download_and_print(remote_path)`: translate the
remote path under the root; if it does not exist, log critically and
`sys.exit(1)` — fatal for this call, no retry; otherwise stream it to
stdout in fixed-size chunks. -/
def download_and_print (fsexists : PPath → Bool) (root : PPath)
    (remote : PPath) : Except CmdErr (List XferEvent) :=
  if !fsexists (join_root root remote) then .error (.exitFail 1)
  else .ok [.streamOut (join_root root remote)]

/-- Method `LocalDownloader.download(remote_path, local_path)`: translate the
remote path under the root; if it does not exist, log critically and
`sys.exit(1)`; otherwise copy content and mode bits to the local
path. -/
def download (fsexists : PPath → Bool) (root : PPath)
    (remote localPath : PPath) : Except CmdErr (List XferEvent) :=
  if !fsexists (join_root root remote) then .error (.exitFail 1)
  else .ok [.copyTo (join_root root remote) localPath]

end LocalDownloader

namespace LocalUploader

/-- Method `LocalUploader.extract_original_input(input_name, input_path,
temp)`: fetch the pristine copy from the side archive, keyed by the
root-relative identity `join_root(PosixPath(''), input_path)`; a
missing member raises `KeyError`, fatal for this call. -/
def extract_original_input (sideArchive : List TarMember)
    (input_path : PPath) (temp : PPath) : Except CmdErr (List XferEvent) :=
  match getmember sideArchive (render ⟨false, input_path.components⟩) with
  | none => .error .exn
  | some _ =>
    .ok [.extractTo (render ⟨false, input_path.components⟩) temp]

end LocalUploader

/-- One download specification of a batch: `role:` (stream to stdout)
or `role:localfile`. -/
inductive DLSpec where
  | toStdout (remote : PPath)
  | toFile (remote : PPath) (localPath : PPath)
deriving DecidableEq, Repr

/-- Modelled from the spec: the `FileDownloader` batch driver lives in
`reprounzip.unpackers.common`, which is not under `src/`; per the spec,
the specifications given in one command invocation are processed in
order, and a missing-file failure is fatal for that call and reported
immediately, without aborting an unrelated batch item. -/
def downloadBatch (fsexists : PPath → Bool) (root : PPath)
    (specs : List DLSpec) : List (Except CmdErr (List XferEvent)) :=
  specs.map (fun s =>
    match s with
    | .toStdout r => LocalDownloader.download_and_print fsexists root r
    | .toFile r l => LocalDownloader.download fsexists root r l)

/-- C9: a file requested by a download — or by an upload restoring a
pristine copy — that is absent on the target makes that call fail
immediately with a fatal error and without any transfer action; in a
batch, the failing item's error leaves every unrelated item's outcome
exactly as it would be alone. -/
theorem c9_missing_file_fatal_per_call :
    ∀ (fsexists : PPath → Bool) (root : PPath) (remote localPath : PPath)
      (pre post : List DLSpec) (sideArchive : List TarMember)
      (ip temp : PPath),
      (fsexists (join_root root remote) = false →
        LocalDownloader.download fsexists root remote localPath =
          .error (.exitFail 1) ∧
        LocalDownloader.download_and_print fsexists root remote =
          .error (.exitFail 1) ∧
        exitCode (LocalDownloader.download fsexists root remote localPath)
          ≠ 0 ∧
        downloadBatch fsexists root
            (pre ++ [.toFile remote localPath] ++ post) =
          downloadBatch fsexists root pre ++ [.error (.exitFail 1)] ++
            downloadBatch fsexists root post) ∧
      (fsexists (join_root root remote) = true →
        LocalDownloader.download fsexists root remote localPath =
          .ok [.copyTo (join_root root remote) localPath]) ∧
      (getmember sideArchive (render ⟨false, ip.components⟩) = none →
        LocalUploader.extract_original_input sideArchive ip temp =
          .error .exn) := by
  intro fsexists root remote localPath pre post sideArchive ip temp
  refine ⟨fun hmiss => ?_, fun hhit => ?_, fun hnone => ?_⟩
  · refine ⟨?_, ?_, ?_, ?_⟩
    · simp [LocalDownloader.download, hmiss]
    · simp [LocalDownloader.download_and_print, hmiss]
    · simp [LocalDownloader.download, hmiss, exitCode]
    · simp only [downloadBatch, List.map_append, List.map_cons,
        List.map_nil]
      simp [LocalDownloader.download, hmiss]
  · simp [LocalDownloader.download, hhit]
  · simp [LocalUploader.extract_original_input, hnone]

/-- C9 witness: a concrete batch with a missing middle item fails that
item alone, leaving the surrounding items' outcomes intact. -/
theorem c9_witness :
    (fun _ => false : PPath → Bool)
        (join_root ⟨true, ["tmp", "t", "root"]⟩ ⟨true, ["out", "res"]⟩) =
      false ∧
    LocalDownloader.download (fun _ => false) ⟨true, ["tmp", "t", "root"]⟩
      ⟨true, ["out", "res"]⟩ ⟨false, ["res"]⟩ = .error (.exitFail 1) := by
  refine ⟨rfl, ?_⟩
  exact ((c9_missing_file_fatal_per_call (fun _ => false)
    ⟨true, ["tmp", "t", "root"]⟩ ⟨true, ["out", "res"]⟩ ⟨false, ["res"]⟩
    [] [] [] ⟨true, ["x"]⟩ ⟨false, ["tmp"]⟩).1 rfl).1

end Reprounzip
